import Mathlib

/-!
Verification of the asset integrity and normalization pipeline
(tools/fix_icons.py): content sniffing by magic bytes, background
classification at the corner pixel, alpha rewrite of near-white pixels,
and the per-file repair orchestrator with its two counters and the
companion ".import" sidecar handling.

The embedding models a file on disk by its leading bytes (all the
sniffer reads), its decoded image (mode plus flat row-major RGBA pixel
data, as PIL getdata returns after a convert to RGBA), and whether the
companion sidecar exists.  The codec is the external collaborator of
the spec: decoding is the stored image, a save of an image as PNG
stores that image behind the canonical PNG magic, deterministically and
losslessly.  Exceptions (decode failure, failed writes, failed sidecar
removal) are modelled by an explicit per-file fault oracle; the
exception-free run uses the all-false oracle.
-/

namespace FixIcons

/-- One pixel record with R, G, B, A channels, each 0 to 255. -/
structure Pixel where
  r : Nat
  g : Nat
  b : Nat
  a : Nat
deriving DecidableEq, Repr

/-- The PIL color modes the tool distinguishes: RGB (opaque truecolor,
the only mode the PNG branch accepts), RGBA (has an alpha channel), and
any other mode (L, P, CMYK, ...), which the PNG branch skips. -/
inductive Mode where
  | RGB
  | RGBA
  | Other
deriving DecidableEq, Repr

/-- A decoded image: its mode and its flat row-major pixel data.
Index 0 of the data is the pixel at grid position (0,0). -/
structure Img where
  mode : Mode
  pixels : List Pixel
deriving DecidableEq, Repr

/-- Sniffed encoding of a file, per the magic-byte rules. -/
inductive Encoding where
  | JPEG
  | PNG
  | UNKNOWN
deriving DecidableEq, Repr

/-- bytes.startswith of Python, on byte lists. -/
def leadsWith : List Nat → List Nat → Bool
  | [], _ => true
  | _ :: _, [] => false
  | a :: as, b :: bs => a == b && leadsWith as bs

/-- The JPEG magic FF D8 FF checked at line 19 of fix_icons.py. -/
def jpegMagic : List Nat := [0xFF, 0xD8, 0xFF]

/-- The PNG magic 89 50 4E 47 checked at line 40 of fix_icons.py. -/
def pngMagic : List Nat := [0x89, 0x50, 0x4E, 0x47]

/-- The content sniffer: the file handle reads header = f.read(4) and the
orchestrator tests header.startswith for the JPEG magic, then for the PNG
magic, in that order; anything else is left alone (UNKNOWN). -/
def classify (bs : List Nat) : Encoding :=
  let header := bs.take 4
  if leadsWith jpegMagic header then Encoding.JPEG
  else if leadsWith pngMagic header then Encoding.PNG
  else Encoding.UNKNOWN

/-- The threshold test of make_transparent: all three color channels
strictly exceed 240 (item[0] > 240 and item[1] > 240 and item[2] > 240);
the alpha channel is not consulted. -/
def whiteish (p : Pixel) : Bool :=
  decide (240 < p.r) && decide (240 < p.g) && decide (240 < p.b)

/-- One iteration of the rewrite loop of make_transparent: a white-ish
pixel becomes fully transparent white (255, 255, 255, 0); any other
pixel is appended unchanged. -/
def rewritePixel (p : Pixel) : Pixel :=
  if whiteish p then ⟨255, 255, 255, 0⟩ else p

/-- The alpha compositor: the newData loop of make_transparent applied
to every pixel of the converted data, in order. -/
def removeBackground (ps : List Pixel) : List Pixel :=
  ps.map rewritePixel

/-- img.convert to RGBA: an image that already has mode RGBA is
unchanged; any other mode gains an alpha channel set fully opaque
(every mode reaching this call in the tool carries no transparency). -/
def convertRGBA (img : Img) : Img :=
  match img.mode with
  | Mode.RGBA => img
  | _ => ⟨Mode.RGBA, img.pixels.map (fun p => { p with a := 255 })⟩

/-- The background classifier inside make_transparent: after the convert
to RGBA, bg_color = datas[0] is sampled and tested with the threshold
rule.  An empty pixel sequence has no index 0 (none = the IndexError). -/
def bgRemovable (img : Img) : Option Bool :=
  match (convertRGBA img).pixels with
  | [] => none
  | bg :: _ => some (whiteish bg)

/-- Outcome of make_transparent: raised (an exception propagates to the
caller), unchanged (the function returned False, nothing written), or
saved img (the function wrote img and returned True). -/
inductive MTResult where
  | raised
  | unchanged
  | saved (img : Img)
deriving DecidableEq, Repr

/-- make_transparent, up to the save: converts to RGBA, samples
datas[0] (raised models the IndexError on an empty image), and either
reports False (unchanged, nothing written) or produces the rewritten
image that the function then saves. -/
def make_transparent (img : Img) : MTResult :=
  match (convertRGBA img).pixels with
  | [] => MTResult.raised
  | bg :: rest =>
    if whiteish bg then
      MTResult.saved ⟨Mode.RGBA, removeBackground (bg :: rest)⟩
    else
      MTResult.unchanged

/-- One file of the walked tree: the bytes the sniffer reads, the image
those bytes decode to (none = not decodable, Image.open raises), and
whether the companion ".import" sidecar currently exists. -/
structure File where
  bytes : List Nat
  image : Option Img
  imp : Bool
deriving DecidableEq, Repr

/-- Fault oracle for one file: which fallible operation of the per-file
try block raises.  All-false is the exception-free execution. -/
structure Oracle where
  failRepairSave : Bool
  failReopen : Bool
  failMTSave : Bool
  failRemoveImp : Bool
deriving DecidableEq, Repr

/-- The exception-free oracle. -/
def noFail : Oracle := ⟨false, false, false, false⟩

/-- Outcome of processing one file: its new on-disk state, the two
counter increments, and whether the except branch caught a raise. -/
structure StepResult where
  file : File
  fixedInc : Nat
  transInc : Nat
  caught : Bool
deriving DecidableEq, Repr

/-- The body of the per-file try block of fix_icons, lines 14 to 52.
JPEG branch: decode, save as PNG in place (the repair), reopen, run
make_transparent, count a transparency save, remove the sidecar if
present, count the repair.  PNG branch: decode, and only when the mode
is exactly RGB run make_transparent; on a transparency save count it
and remove the sidecar.  Every raise is caught where the source catches
it: the file keeps whatever complete writes already happened, later
statements (including counter increments) are skipped. -/
def processFile (o : Oracle) (f : File) : StepResult :=
  if classify f.bytes = Encoding.JPEG then
    match f.image with
    | none => ⟨f, 0, 0, true⟩
    | some img =>
      if o.failRepairSave then ⟨f, 0, 0, true⟩
      else
        let f1 : File := { f with bytes := pngMagic, image := some img }
        if o.failReopen then ⟨f1, 0, 0, true⟩
        else
          match make_transparent img with
          | MTResult.raised => ⟨f1, 0, 0, true⟩
          | MTResult.unchanged =>
            if f1.imp && o.failRemoveImp then ⟨f1, 0, 0, true⟩
            else ⟨{ f1 with imp := false }, 1, 0, false⟩
          | MTResult.saved img2 =>
            if o.failMTSave then ⟨f1, 0, 0, true⟩
            else
              let f2 : File := { f1 with image := some img2 }
              if f2.imp && o.failRemoveImp then ⟨f2, 0, 1, true⟩
              else ⟨{ f2 with imp := false }, 1, 1, false⟩
  else if classify f.bytes = Encoding.PNG then
    match f.image with
    | none => ⟨f, 0, 0, true⟩
    | some img =>
      if img.mode = Mode.RGB then
        match make_transparent img with
        | MTResult.raised => ⟨f, 0, 0, true⟩
        | MTResult.unchanged => ⟨f, 0, 0, false⟩
        | MTResult.saved img2 =>
          if o.failMTSave then ⟨f, 0, 0, true⟩
          else
            let f2 : File := { f with bytes := pngMagic, image := some img2 }
            if f2.imp && o.failRemoveImp then ⟨f2, 0, 1, true⟩
            else ⟨{ f2 with imp := false }, 0, 1, false⟩
      else ⟨f, 0, 0, false⟩
  else ⟨f, 0, 0, false⟩

/-- Aggregate outcome of one run: final file states in walk order and
the two counters fixed_count and transparent_count. -/
structure RunResult where
  files : List File
  fixed : Nat
  trans : Nat
deriving DecidableEq, Repr

/-- The walk: every discovered file is processed in order with the same
fault oracle; per-file raises never abort the loop. -/
def runO (o : Oracle) : List File → RunResult
  | [] => ⟨[], 0, 0⟩
  | f :: rest =>
    let r := processFile o f
    let rr := runO o rest
    ⟨r.file :: rr.files, r.fixedInc + rr.fixed, r.transInc + rr.trans⟩

/-- An exception-free run over a tree of files. -/
def run (fs : List File) : RunResult := runO noFail fs

/-- Condition under which the per-file code reaches the make_transparent
call in an exception-free execution: in the JPEG branch (lines 26 to 29)
unconditionally once the file decodes, and in the PNG branch (lines 40
to 44) only behind the mode test of line 41. -/
def mtInvoked (f : File) : Bool :=
  match classify f.bytes, f.image with
  | Encoding.JPEG, some _ => true
  | Encoding.PNG, some img => decide (img.mode = Mode.RGB)
  | _, _ => false

/-- Whether a color mode carries an alpha channel. -/
def hasAlpha (m : Mode) : Bool := decide (m = Mode.RGBA)

/-- The complete-write states one file can be left in by the per-file
try block: as found, after the repair save, after the transparency
save, and the latter two after the sidecar removal. -/
def reachableStates (f : File) : List File :=
  match f.image with
  | none => [f]
  | some img =>
    let f1 : File := { f with bytes := pngMagic, image := some img }
    match make_transparent img with
    | MTResult.raised => [f, f1]
    | MTResult.unchanged => [f, f1, { f1 with imp := false }]
    | MTResult.saved img2 =>
      [f, f1, { f1 with image := some img2 },
       { f1 with image := some img2, imp := false }]

/-! ### Helper lemmas -/

theorem whiteish_iff (p : Pixel) :
    whiteish p = true ↔ (240 < p.r ∧ 240 < p.g ∧ 240 < p.b) := by
  simp [whiteish, and_assoc]

theorem whiteish_set_alpha (p : Pixel) (x : Nat) :
    whiteish { p with a := x } = whiteish p := rfl

theorem rewritePixel_eq (p : Pixel) :
    rewritePixel p =
      if 240 < p.r ∧ 240 < p.g ∧ 240 < p.b then (⟨255, 255, 255, 0⟩ : Pixel)
      else p := by
  by_cases h : 240 < p.r ∧ 240 < p.g ∧ 240 < p.b
  · rw [if_pos h]
    unfold rewritePixel
    rw [if_pos ((whiteish_iff p).mpr h)]
  · rw [if_neg h]
    unfold rewritePixel
    rw [if_neg (fun hw => h ((whiteish_iff p).mp hw))]

theorem removeBackground_getD (ps : List Pixel) (i : Nat) (d : Pixel)
    (h : i < ps.length) :
    (removeBackground ps).getD i d = rewritePixel (ps.getD i d) := by
  unfold removeBackground
  rw [List.getD_eq_getElem?_getD, List.getD_eq_getElem?_getD,
    List.getElem?_map, List.getElem?_eq_getElem h]
  rfl

theorem whiteish_eq_decide (p : Pixel) :
    whiteish p = decide (240 < p.r ∧ 240 < p.g ∧ 240 < p.b) := by
  by_cases h : 240 < p.r ∧ 240 < p.g ∧ 240 < p.b
  · rw [decide_eq_true h, (whiteish_iff p).mpr h]
  · rw [decide_eq_false h, Bool.eq_false_iff]
    exact fun hw => h ((whiteish_iff p).mp hw)

theorem leadsWith_take (pre : List Nat) :
    ∀ (n : Nat) (bs : List Nat), pre.length ≤ n →
      leadsWith pre (bs.take n) = leadsWith pre bs := by
  induction pre with
  | nil => intro n bs _; rfl
  | cons a as ih =>
    intro n bs h
    cases n with
    | zero => simp at h
    | succ m =>
      cases bs with
      | nil => rfl
      | cons b bs2 =>
        have hlen : as.length ≤ m := by simp at h; omega
        simp [leadsWith, ih m bs2 hlen]

theorem classify_jpeg_iff (bs : List Nat) :
    classify bs = Encoding.JPEG ↔ leadsWith jpegMagic bs = true := by
  unfold classify
  rw [← leadsWith_take jpegMagic 4 bs (by decide)]
  cases hj : leadsWith jpegMagic (bs.take 4) <;>
    cases hp : leadsWith pngMagic (bs.take 4) <;> simp [hj, hp]

theorem classify_png_iff (bs : List Nat) :
    classify bs = Encoding.PNG ↔
      (leadsWith pngMagic bs = true ∧ leadsWith jpegMagic bs = false) := by
  unfold classify
  rw [← leadsWith_take jpegMagic 4 bs (by decide),
    ← leadsWith_take pngMagic 4 bs (by decide)]
  cases hj : leadsWith jpegMagic (bs.take 4) <;>
    cases hp : leadsWith pngMagic (bs.take 4) <;> simp [hj, hp]

theorem classify_unknown_iff (bs : List Nat) :
    classify bs = Encoding.UNKNOWN ↔
      (leadsWith jpegMagic bs = false ∧ leadsWith pngMagic bs = false) := by
  unfold classify
  rw [← leadsWith_take jpegMagic 4 bs (by decide),
    ← leadsWith_take pngMagic 4 bs (by decide)]
  cases hj : leadsWith jpegMagic (bs.take 4) <;>
    cases hp : leadsWith pngMagic (bs.take 4) <;> simp [hj, hp]

theorem mt_cons_not_raised (img : Img) (bg : Pixel) (rest : List Pixel)
    (hpx : img.pixels = bg :: rest) :
    make_transparent img ≠ MTResult.raised := by
  obtain ⟨m, px⟩ := img
  simp only at hpx
  subst hpx
  cases m <;> simp only [make_transparent, convertRGBA, List.map_cons] <;>
    split <;> simp

theorem mt_saved_mode (img img2 : Img)
    (h : make_transparent img = MTResult.saved img2) :
    img2.mode = Mode.RGBA := by
  unfold make_transparent at h
  split at h
  · cases h
  · split at h
    · cases h
      rfl
    · cases h

theorem mt_unchanged_of_head (img : Img) (bg : Pixel) (rest : List Pixel)
    (hpx : img.pixels = bg :: rest) (hw : whiteish bg = false) :
    make_transparent img = MTResult.unchanged := by
  obtain ⟨m, px⟩ := img
  simp only at hpx
  subst hpx
  cases m <;>
    simp [make_transparent, convertRGBA, whiteish_set_alpha, hw]

/-! ### Claim theorems -/

/-- C5: the alpha compositor produces a pixel sequence of identical
length in which each pixel whose three color channels all exceed 240 is
replaced by (255, 255, 255, 0), and every other pixel is passed through
unchanged, including its original alpha. -/
theorem c5_alpha_compositor (ps : List Pixel) (i : Nat) (h : i < ps.length) :
    (removeBackground ps).length = ps.length ∧
    (removeBackground ps).getD i ⟨0, 0, 0, 0⟩ =
      (if 240 < (ps.getD i ⟨0, 0, 0, 0⟩).r ∧ 240 < (ps.getD i ⟨0, 0, 0, 0⟩).g ∧
          240 < (ps.getD i ⟨0, 0, 0, 0⟩).b
       then (⟨255, 255, 255, 0⟩ : Pixel)
       else ps.getD i ⟨0, 0, 0, 0⟩) := by
  refine ⟨by simp [removeBackground], ?_⟩
  rw [removeBackground_getD ps i _ h, rewritePixel_eq]

/-- Witness for C5 at a two-pixel grid, index 1. -/
theorem c5_alpha_compositor_witness :
    1 < ([⟨250, 250, 250, 7⟩, ⟨10, 20, 30, 40⟩] : List Pixel).length ∧
    ((removeBackground [⟨250, 250, 250, 7⟩, ⟨10, 20, 30, 40⟩]).length =
        ([⟨250, 250, 250, 7⟩, ⟨10, 20, 30, 40⟩] : List Pixel).length ∧
      (removeBackground [⟨250, 250, 250, 7⟩, ⟨10, 20, 30, 40⟩]).getD 1 ⟨0, 0, 0, 0⟩ =
        (if 240 < (([⟨250, 250, 250, 7⟩, ⟨10, 20, 30, 40⟩] : List Pixel).getD 1 ⟨0, 0, 0, 0⟩).r ∧
            240 < (([⟨250, 250, 250, 7⟩, ⟨10, 20, 30, 40⟩] : List Pixel).getD 1 ⟨0, 0, 0, 0⟩).g ∧
            240 < (([⟨250, 250, 250, 7⟩, ⟨10, 20, 30, 40⟩] : List Pixel).getD 1 ⟨0, 0, 0, 0⟩).b
         then (⟨255, 255, 255, 0⟩ : Pixel)
         else ([⟨250, 250, 250, 7⟩, ⟨10, 20, 30, 40⟩] : List Pixel).getD 1 ⟨0, 0, 0, 0⟩)) :=
  ⟨by decide, c5_alpha_compositor [⟨250, 250, 250, 7⟩, ⟨10, 20, 30, 40⟩] 1 (by decide)⟩

/-- C1 counterexample: the rewrite does not keep the color channels of
a matched pixel: input pixel (241, 241, 241, 255) has all channels above
the threshold and is replaced by (255, 255, 255, 0), so its red channel
changes from 241 to 255. -/
theorem c1_counterexample :
    ((removeBackground [⟨241, 241, 241, 255⟩]).getD 0 ⟨0, 0, 0, 0⟩).r ≠
      (([⟨241, 241, 241, 255⟩] : List Pixel).getD 0 ⟨0, 0, 0, 0⟩).r := by decide

/-- C1 amended: a pixel whose three color channels do not all exceed
240 is passed through with all four channels identical to the input;
a pixel whose three color channels all exceed 240 is replaced by
(255, 255, 255, 0), so its color channels become 255 and only such
pixels differ from the input at all. -/
theorem c1_color_passthrough (ps : List Pixel) (i : Nat) (h : i < ps.length) :
    (¬ (240 < (ps.getD i ⟨0, 0, 0, 0⟩).r ∧ 240 < (ps.getD i ⟨0, 0, 0, 0⟩).g ∧
          240 < (ps.getD i ⟨0, 0, 0, 0⟩).b) →
        (removeBackground ps).getD i ⟨0, 0, 0, 0⟩ = ps.getD i ⟨0, 0, 0, 0⟩) ∧
    ((240 < (ps.getD i ⟨0, 0, 0, 0⟩).r ∧ 240 < (ps.getD i ⟨0, 0, 0, 0⟩).g ∧
          240 < (ps.getD i ⟨0, 0, 0, 0⟩).b) →
        (removeBackground ps).getD i ⟨0, 0, 0, 0⟩ = ⟨255, 255, 255, 0⟩) := by
  constructor <;> intro hc <;>
    rw [removeBackground_getD ps i _ h, rewritePixel_eq]
  · rw [if_neg hc]
  · rw [if_pos hc]

/-- Witness for the amended C1 at a one-pixel grid whose pixel misses
the threshold. -/
theorem c1_color_passthrough_witness :
    0 < ([⟨200, 0, 0, 1⟩] : List Pixel).length ∧
    ((¬ (240 < (([⟨200, 0, 0, 1⟩] : List Pixel).getD 0 ⟨0, 0, 0, 0⟩).r ∧
          240 < (([⟨200, 0, 0, 1⟩] : List Pixel).getD 0 ⟨0, 0, 0, 0⟩).g ∧
          240 < (([⟨200, 0, 0, 1⟩] : List Pixel).getD 0 ⟨0, 0, 0, 0⟩).b) →
        (removeBackground [⟨200, 0, 0, 1⟩]).getD 0 ⟨0, 0, 0, 0⟩ =
          ([⟨200, 0, 0, 1⟩] : List Pixel).getD 0 ⟨0, 0, 0, 0⟩) ∧
      ((240 < (([⟨200, 0, 0, 1⟩] : List Pixel).getD 0 ⟨0, 0, 0, 0⟩).r ∧
          240 < (([⟨200, 0, 0, 1⟩] : List Pixel).getD 0 ⟨0, 0, 0, 0⟩).g ∧
          240 < (([⟨200, 0, 0, 1⟩] : List Pixel).getD 0 ⟨0, 0, 0, 0⟩).b) →
        (removeBackground [⟨200, 0, 0, 1⟩]).getD 0 ⟨0, 0, 0, 0⟩ = ⟨255, 255, 255, 0⟩)) :=
  ⟨by decide, c1_color_passthrough [⟨200, 0, 0, 1⟩] 0 (by decide)⟩

/-- C6: the background classifier samples exactly the pixel at position
(0,0): the verdict is removable iff all three color channels of that
pixel strictly exceed 240, a channel exactly at 240 never yields a
removable verdict, and neither the alpha of the sampled pixel nor any
other pixel of the grid influences the verdict. -/
theorem c6_background_classifier (img : Img) (bg : Pixel) (rest : List Pixel)
    (a2 : Nat) (rest2 : List Pixel) (h : img.pixels = bg :: rest) :
    bgRemovable img = some (decide (240 < bg.r ∧ 240 < bg.g ∧ 240 < bg.b)) ∧
    ((bg.r = 240 ∨ bg.g = 240 ∨ bg.b = 240) → bgRemovable img ≠ some true) ∧
    bgRemovable ⟨img.mode, { bg with a := a2 } :: rest2⟩ = bgRemovable img := by
  have hmain : bgRemovable img = some (whiteish bg) := by
    obtain ⟨m, px⟩ := img
    simp only at h
    subst h
    cases m <;> simp [bgRemovable, convertRGBA, whiteish_set_alpha]
  have halt : bgRemovable ⟨img.mode, { bg with a := a2 } :: rest2⟩ =
      some (whiteish bg) := by
    cases hm : img.mode <;> simp [bgRemovable, convertRGBA, whiteish_set_alpha]
  refine ⟨by rw [hmain, whiteish_eq_decide], ?_, by rw [halt, hmain]⟩
  intro hor heq
  rw [hmain, whiteish_eq_decide] at heq
  have hp : 240 < bg.r ∧ 240 < bg.g ∧ 240 < bg.b :=
    of_decide_eq_true (Option.some.inj heq)
  rcases hor with h1 | h1 | h1 <;> omega

/-- Witness for C6 at a two-pixel image whose corner has green channel
exactly 240. -/
theorem c6_background_classifier_witness :
    (⟨Mode.RGB, [⟨255, 240, 250, 3⟩, ⟨1, 1, 1, 1⟩]⟩ : Img).pixels =
      ⟨255, 240, 250, 3⟩ :: [⟨1, 1, 1, 1⟩] ∧
    (bgRemovable ⟨Mode.RGB, [⟨255, 240, 250, 3⟩, ⟨1, 1, 1, 1⟩]⟩ =
        some (decide (240 < (255 : Nat) ∧ 240 < (240 : Nat) ∧ 240 < (250 : Nat))) ∧
      (((255 : Nat) = 240 ∨ (240 : Nat) = 240 ∨ (250 : Nat) = 240) →
        bgRemovable ⟨Mode.RGB, [⟨255, 240, 250, 3⟩, ⟨1, 1, 1, 1⟩]⟩ ≠ some true) ∧
      bgRemovable ⟨(⟨Mode.RGB, [⟨255, 240, 250, 3⟩, ⟨1, 1, 1, 1⟩]⟩ : Img).mode,
          ⟨255, 240, 250, 77⟩ :: []⟩ =
        bgRemovable ⟨Mode.RGB, [⟨255, 240, 250, 3⟩, ⟨1, 1, 1, 1⟩]⟩) :=
  ⟨rfl, c6_background_classifier ⟨Mode.RGB, [⟨255, 240, 250, 3⟩, ⟨1, 1, 1, 1⟩]⟩
    ⟨255, 240, 250, 3⟩ [⟨1, 1, 1, 1⟩] 77 [] rfl⟩

/-- C7: the content sniffer depends only on the first 4 bytes; a byte
sequence beginning with FF D8 FF is JPEG, one beginning with
89 50 4E 47 is PNG (first match wins), anything else is UNKNOWN, and a
file sniffed UNKNOWN is not acted upon at all: its state is unchanged
and no counter is incremented, under every fault oracle. -/
theorem c7_content_sniffer :
    (∀ bs : List Nat, classify bs = classify (bs.take 4)) ∧
    (∀ bs : List Nat, classify bs = Encoding.JPEG ↔ leadsWith jpegMagic bs = true) ∧
    (∀ bs : List Nat, classify bs = Encoding.PNG ↔
      (leadsWith pngMagic bs = true ∧ leadsWith jpegMagic bs = false)) ∧
    (∀ bs : List Nat, classify bs = Encoding.UNKNOWN ↔
      (leadsWith jpegMagic bs = false ∧ leadsWith pngMagic bs = false)) ∧
    (∀ (o : Oracle) (f : File), classify f.bytes = Encoding.UNKNOWN →
      processFile o f = ⟨f, 0, 0, false⟩) := by
  refine ⟨?_, classify_jpeg_iff, classify_png_iff, classify_unknown_iff, ?_⟩
  · intro bs
    simp [classify, List.take_take]
  · intro o f h
    simp [processFile, h]

/-- Witness for C7: a file whose bytes match neither magic is returned
untouched with both increments zero. -/
theorem c7_content_sniffer_witness :
    classify (File.bytes ⟨[1, 2, 3], some ⟨Mode.RGB, [⟨255, 255, 255, 9⟩]⟩, true⟩) =
      Encoding.UNKNOWN ∧
    processFile ⟨true, false, true, false⟩
        ⟨[1, 2, 3], some ⟨Mode.RGB, [⟨255, 255, 255, 9⟩]⟩, true⟩ =
      ⟨⟨[1, 2, 3], some ⟨Mode.RGB, [⟨255, 255, 255, 9⟩]⟩, true⟩, 0, 0, false⟩ :=
  ⟨by decide, c7_content_sniffer.2.2.2.2 ⟨true, false, true, false⟩
    ⟨[1, 2, 3], some ⟨Mode.RGB, [⟨255, 255, 255, 9⟩]⟩, true⟩ (by decide)⟩

/-- C2 counterexample: a file with JPEG magic whose decoded image
already carries an alpha channel (mode RGBA) still reaches the
classify/rewrite logic — the JPEG-repair branch performs no mode check
— and the rewrite is in fact applied: the transparency counter
increments on an image that was not opaque. -/
theorem c2_counterexample :
    mtInvoked ⟨jpegMagic, some ⟨Mode.RGBA, [⟨255, 255, 255, 5⟩]⟩, false⟩ = true ∧
    hasAlpha (Img.mode ⟨Mode.RGBA, [⟨255, 255, 255, 5⟩]⟩) = true ∧
    (processFile noFail
        ⟨jpegMagic, some ⟨Mode.RGBA, [⟨255, 255, 255, 5⟩]⟩, false⟩).transInc = 1 := by
  decide

/-- C2 amended: only the already-PNG branch guards the classify/rewrite
logic with a mode check (requiring mode exactly RGB, hence opaque); the
JPEG-repair branch invokes make_transparent unconditionally on every
file it decodes, with no mode check.  A file on which the logic is not
reached gets no transparency increment. -/
theorem c2_mode_check (f : File) (img : Img) (h : f.image = some img) :
    (classify f.bytes = Encoding.JPEG → mtInvoked f = true) ∧
    (classify f.bytes = Encoding.PNG →
      (mtInvoked f = true ↔ img.mode = Mode.RGB)) ∧
    (mtInvoked f = false → (processFile noFail f).transInc = 0) := by
  refine ⟨fun hj => by simp [mtInvoked, hj, h], fun hp => by simp [mtInvoked, hp, h], ?_⟩
  intro hno
  by_cases hj : classify f.bytes = Encoding.JPEG
  · rw [mtInvoked, hj, h] at hno
    cases hno
  · by_cases hp : classify f.bytes = Encoding.PNG
    · rw [mtInvoked, hp, h] at hno
      have hm : ¬ img.mode = Mode.RGB := of_decide_eq_false hno
      simp [processFile, hj, hp, h, hm]
    · simp [processFile, hj, hp]

/-- Witness for the amended C2 at a PNG file of mode RGBA. -/
theorem c2_mode_check_witness :
    (⟨pngMagic, some ⟨Mode.RGBA, []⟩, false⟩ : File).image = some ⟨Mode.RGBA, []⟩ ∧
    ((classify (⟨pngMagic, some ⟨Mode.RGBA, []⟩, false⟩ : File).bytes = Encoding.JPEG →
        mtInvoked ⟨pngMagic, some ⟨Mode.RGBA, []⟩, false⟩ = true) ∧
      (classify (⟨pngMagic, some ⟨Mode.RGBA, []⟩, false⟩ : File).bytes = Encoding.PNG →
        (mtInvoked ⟨pngMagic, some ⟨Mode.RGBA, []⟩, false⟩ = true ↔
          (⟨Mode.RGBA, []⟩ : Img).mode = Mode.RGB)) ∧
      (mtInvoked ⟨pngMagic, some ⟨Mode.RGBA, []⟩, false⟩ = false →
        (processFile noFail ⟨pngMagic, some ⟨Mode.RGBA, []⟩, false⟩).transInc = 0)) :=
  ⟨rfl, c2_mode_check ⟨pngMagic, some ⟨Mode.RGBA, []⟩, false⟩ ⟨Mode.RGBA, []⟩ rfl⟩

/-- C8: in an exception-free run, whenever the per-file step performs a
transparency rewrite (its transparency increment is 1), the companion
".import" sidecar does not exist afterwards. -/
theorem c8_sidecar_consistency (f : File)
    (h : (processFile noFail f).transInc = 1) :
    (processFile noFail f).file.imp = false := by
  by_cases hj : classify f.bytes = Encoding.JPEG
  · cases hi : f.image with
    | none => simp [processFile, hj, hi] at h
    | some img =>
      cases hmt : make_transparent img with
      | raised => simp [processFile, hj, hi, hmt, noFail] at h
      | unchanged => simp [processFile, hj, hi, hmt, noFail] at h
      | saved img2 => simp [processFile, hj, hi, hmt, noFail]
  · by_cases hp : classify f.bytes = Encoding.PNG
    · cases hi : f.image with
      | none => simp [processFile, hj, hp, hi] at h
      | some img =>
        by_cases hm : img.mode = Mode.RGB
        · cases hmt : make_transparent img with
          | raised => simp [processFile, hj, hp, hi, hm, hmt, noFail] at h
          | unchanged => simp [processFile, hj, hp, hi, hm, hmt, noFail] at h
          | saved img2 => simp [processFile, hj, hp, hi, hm, hmt, noFail]
        · simp [processFile, hj, hp, hi, hm] at h
    · simp [processFile, hj, hp] at h

/-- Witness for C8: an RGB PNG with white corner and a pre-existing
sidecar is rewritten and the sidecar is gone. -/
theorem c8_sidecar_consistency_witness :
    (processFile noFail
        ⟨pngMagic, some ⟨Mode.RGB, [⟨255, 255, 255, 255⟩]⟩, true⟩).transInc = 1 ∧
    (processFile noFail
        ⟨pngMagic, some ⟨Mode.RGB, [⟨255, 255, 255, 255⟩]⟩, true⟩).file.imp = false :=
  ⟨by decide, c8_sidecar_consistency
    ⟨pngMagic, some ⟨Mode.RGB, [⟨255, 255, 255, 255⟩]⟩, true⟩ (by decide)⟩

/-- C9: a file that is already canonical PNG and either decodes with an
alpha channel (mode RGBA) or has a corner pixel missing the threshold
is a true no-op for the exception-free run: the file state (bytes,
image, sidecar) is returned untouched and neither counter increments. -/
theorem c9_silent_noop (f : File) (img : Img)
    (h1 : classify f.bytes = Encoding.PNG) (h2 : f.image = some img)
    (h3 : img.mode = Mode.RGBA ∨
      ∃ bg rest, img.pixels = bg :: rest ∧
        ¬ (240 < bg.r ∧ 240 < bg.g ∧ 240 < bg.b)) :
    processFile noFail f = ⟨f, 0, 0, false⟩ := by
  have hj : ¬ classify f.bytes = Encoding.JPEG := by rw [h1]; intro hc; cases hc
  rcases h3 with hmode | ⟨bg, rest, hpx, hno⟩
  · simp [processFile, hj, h1, h2, hmode]
  · by_cases hm : img.mode = Mode.RGB
    · have hwf : whiteish bg = false := by
        cases hwb : whiteish bg with
        | false => rfl
        | true => exact absurd ((whiteish_iff bg).mp hwb) hno
      have hu := mt_unchanged_of_head img bg rest hpx hwf
      simp [processFile, hj, h1, h2, hm, hu]
    · simp [processFile, hj, h1, h2, hm]

/-- Witness for C9: a dark-cornered RGB PNG with a sidecar present is
left exactly as found. -/
theorem c9_silent_noop_witness :
    classify (⟨pngMagic, some ⟨Mode.RGB, [⟨10, 10, 10, 255⟩]⟩, true⟩ : File).bytes =
      Encoding.PNG ∧
    (⟨pngMagic, some ⟨Mode.RGB, [⟨10, 10, 10, 255⟩]⟩, true⟩ : File).image =
      some ⟨Mode.RGB, [⟨10, 10, 10, 255⟩]⟩ ∧
    processFile noFail ⟨pngMagic, some ⟨Mode.RGB, [⟨10, 10, 10, 255⟩]⟩, true⟩ =
      ⟨⟨pngMagic, some ⟨Mode.RGB, [⟨10, 10, 10, 255⟩]⟩, true⟩, 0, 0, false⟩ :=
  ⟨by decide, rfl, c9_silent_noop ⟨pngMagic, some ⟨Mode.RGB, [⟨10, 10, 10, 255⟩]⟩, true⟩
    ⟨Mode.RGB, [⟨10, 10, 10, 255⟩]⟩ (by decide) rfl
    (Or.inr ⟨⟨10, 10, 10, 255⟩, [], rfl, by decide⟩)⟩

/-- C10: in the JPEG-repair branch of an exception-free run, the
sidecar is removed and the repair is counted for every decodable file
with a nonempty pixel grid, whatever the transparency check decides —
the removal is tied to the repair, not to the rewrite. -/
theorem c10_jpeg_sidecar_unconditional (f : File) (img : Img)
    (bg : Pixel) (rest : List Pixel)
    (h1 : classify f.bytes = Encoding.JPEG) (h2 : f.image = some img)
    (h3 : img.pixels = bg :: rest) :
    (processFile noFail f).file.imp = false ∧
    (processFile noFail f).fixedInc = 1 := by
  cases hmt : make_transparent img with
  | raised => exact absurd hmt (mt_cons_not_raised img bg rest h3)
  | unchanged => simp [processFile, h1, h2, hmt, noFail]
  | saved img2 => simp [processFile, h1, h2, hmt, noFail]

/-- Witness for C10: a black-cornered masked JPEG with a sidecar: no
transparency change, yet the sidecar is removed and the repair counted. -/
theorem c10_jpeg_sidecar_unconditional_witness :
    classify (⟨[0xFF, 0xD8, 0xFF, 0xE0], some ⟨Mode.RGB, [⟨0, 0, 0, 9⟩]⟩, true⟩ : File).bytes =
      Encoding.JPEG ∧
    (⟨[0xFF, 0xD8, 0xFF, 0xE0], some ⟨Mode.RGB, [⟨0, 0, 0, 9⟩]⟩, true⟩ : File).image =
      some ⟨Mode.RGB, [⟨0, 0, 0, 9⟩]⟩ ∧
    ((processFile noFail
        ⟨[0xFF, 0xD8, 0xFF, 0xE0], some ⟨Mode.RGB, [⟨0, 0, 0, 9⟩]⟩, true⟩).file.imp = false ∧
      (processFile noFail
        ⟨[0xFF, 0xD8, 0xFF, 0xE0], some ⟨Mode.RGB, [⟨0, 0, 0, 9⟩]⟩, true⟩).fixedInc = 1) :=
  ⟨by decide, rfl, c10_jpeg_sidecar_unconditional
    ⟨[0xFF, 0xD8, 0xFF, 0xE0], some ⟨Mode.RGB, [⟨0, 0, 0, 9⟩]⟩, true⟩
    ⟨Mode.RGB, [⟨0, 0, 0, 9⟩]⟩ ⟨0, 0, 0, 9⟩ [] (by decide) rfl rfl⟩

theorem mem_reachable_self (f : File) : f ∈ reachableStates f := by
  unfold reachableStates
  split
  · simp
  · split <;> simp

/-- C4 counterexample: a masked JPEG with a white corner and a sidecar,
whose reopen after the repair save raises (for example the permission
is revoked mid-processing).  The raise is caught, but the file is left
neither exactly as it was found nor at the bytes full processing
produces: it holds the repaired bytes without the transparency rewrite,
a partial state between the two writes of the JPEG branch. -/
theorem c4_counterexample :
    (processFile ⟨false, true, false, false⟩
      ⟨[0xFF, 0xD8, 0xFF, 0xE0], some ⟨Mode.RGB, [⟨250, 250, 250, 7⟩]⟩, true⟩).caught =
        true ∧
    (processFile ⟨false, true, false, false⟩
      ⟨[0xFF, 0xD8, 0xFF, 0xE0], some ⟨Mode.RGB, [⟨250, 250, 250, 7⟩]⟩, true⟩).file ≠
        ⟨[0xFF, 0xD8, 0xFF, 0xE0], some ⟨Mode.RGB, [⟨250, 250, 250, 7⟩]⟩, true⟩ ∧
    (processFile ⟨false, true, false, false⟩
      ⟨[0xFF, 0xD8, 0xFF, 0xE0], some ⟨Mode.RGB, [⟨250, 250, 250, 7⟩]⟩, true⟩).file ≠
      (processFile noFail
        ⟨[0xFF, 0xD8, 0xFF, 0xE0], some ⟨Mode.RGB, [⟨250, 250, 250, 7⟩]⟩, true⟩).file := by
  decide

/-- C4 amended: every per-file raise is caught and the walk continues,
visiting every file; each individual write is complete, so under any
fault pattern the file is left in one of the stage states — as found,
after the format-repair save, or after the transparency save, the
latter two with or without the sidecar removed — but not necessarily
either untouched or fully processed. -/
theorem c4_fault_isolation :
    (∀ (o : Oracle) (f : File), (processFile o f).file ∈ reachableStates f) ∧
    (∀ (o : Oracle) (fs : List File), (runO o fs).files.length = fs.length) := by
  constructor
  · intro o f
    by_cases hj : classify f.bytes = Encoding.JPEG
    · cases hi : f.image with
      | none => simp [processFile, reachableStates, hj, hi]
      | some img =>
        cases hmt : make_transparent img with
        | raised =>
          simp only [processFile, hj, hi, hmt, if_true, eq_self_iff_true]
          split_ifs <;> simp [reachableStates, hi, hmt]
        | unchanged =>
          simp only [processFile, hj, hi, hmt, if_true, eq_self_iff_true]
          split_ifs <;> simp [reachableStates, hi, hmt]
        | saved img2 =>
          simp only [processFile, hj, hi, hmt, if_true, eq_self_iff_true]
          split_ifs <;> simp [reachableStates, hi, hmt]
    · by_cases hp : classify f.bytes = Encoding.PNG
      · cases hi : f.image with
        | none => simp [processFile, reachableStates, hj, hp, hi]
        | some img =>
          by_cases hm : img.mode = Mode.RGB
          · cases hmt : make_transparent img with
            | raised =>
              simp [processFile, hj, hp, hi, hm, hmt, reachableStates]
            | unchanged =>
              simp [processFile, hj, hp, hi, hm, hmt, reachableStates]
            | saved img2 =>
              simp only [processFile, hj, hp, hi, hm, hmt, if_true,
                eq_self_iff_true]
              split_ifs <;> simp [reachableStates, hi, hmt]
          · simp only [processFile, hj, hp, hi, hm]
            simp [mem_reachable_self]
      · simp only [processFile, hj, hp]
        simp [mem_reachable_self]
  · intro o fs
    induction fs with
    | nil => rfl
    | cons f rest ih => simp [runO, ih]

theorem classify_pngMagic : classify pngMagic = Encoding.PNG := by decide

theorem runO_cons (o : Oracle) (f : File) (rest : List File) :
    runO o (f :: rest) =
      ⟨(processFile o f).file :: (runO o rest).files,
        (processFile o f).fixedInc + (runO o rest).fixed,
        (processFile o f).transInc + (runO o rest).trans⟩ := rfl

theorem processFile_idem (f : File) :
    (processFile noFail ((processFile noFail f).file)).file =
      (processFile noFail f).file ∧
    (processFile noFail ((processFile noFail f).file)).fixedInc = 0 ∧
    (processFile noFail ((processFile noFail f).file)).transInc = 0 := by
  by_cases hj : classify f.bytes = Encoding.JPEG
  · cases hi : f.image with
    | none =>
      have hr : processFile noFail f = ⟨f, 0, 0, true⟩ := by
        simp [processFile, hj, hi]
      rw [hr]
      simp [processFile, hj, hi]
    | some img =>
      cases hmt : make_transparent img with
      | raised =>
        have hr : processFile noFail f = ⟨⟨pngMagic, some img, f.imp⟩, 0, 0, true⟩ := by
          simp [processFile, hj, hi, hmt, noFail]
        rw [hr]
        by_cases hm : img.mode = Mode.RGB
        · simp [processFile, classify_pngMagic, hm, hmt]
        · simp [processFile, classify_pngMagic, hm]
      | unchanged =>
        have hr : processFile noFail f = ⟨⟨pngMagic, some img, false⟩, 1, 0, false⟩ := by
          simp [processFile, hj, hi, hmt, noFail]
        rw [hr]
        by_cases hm : img.mode = Mode.RGB
        · simp [processFile, classify_pngMagic, hm, hmt]
        · simp [processFile, classify_pngMagic, hm]
      | saved img2 =>
        have hr : processFile noFail f = ⟨⟨pngMagic, some img2, false⟩, 1, 1, false⟩ := by
          simp [processFile, hj, hi, hmt, noFail]
        rw [hr]
        have hmn : ¬ img2.mode = Mode.RGB := by
          rw [mt_saved_mode img img2 hmt]
          intro hc
          cases hc
        simp [processFile, classify_pngMagic, hmn]
  · by_cases hp : classify f.bytes = Encoding.PNG
    · cases hi : f.image with
      | none =>
        have hr : processFile noFail f = ⟨f, 0, 0, true⟩ := by
          simp [processFile, hj, hp, hi]
        rw [hr]
        simp [processFile, hj, hp, hi]
      | some img =>
        by_cases hm : img.mode = Mode.RGB
        · cases hmt : make_transparent img with
          | raised =>
            have hr : processFile noFail f = ⟨f, 0, 0, true⟩ := by
              simp [processFile, hj, hp, hi, hm, hmt]
            rw [hr]
            simp [processFile, hj, hp, hi, hm, hmt]
          | unchanged =>
            have hr : processFile noFail f = ⟨f, 0, 0, false⟩ := by
              simp [processFile, hj, hp, hi, hm, hmt]
            rw [hr]
            simp [processFile, hj, hp, hi, hm, hmt]
          | saved img2 =>
            have hr : processFile noFail f = ⟨⟨pngMagic, some img2, false⟩, 0, 1, false⟩ := by
              simp [processFile, hj, hp, hi, hm, hmt, noFail]
            rw [hr]
            have hmn : ¬ img2.mode = Mode.RGB := by
              rw [mt_saved_mode img img2 hmt]
              intro hc
              cases hc
            simp [processFile, classify_pngMagic, hmn]
        · have hr : processFile noFail f = ⟨f, 0, 0, false⟩ := by
            simp [processFile, hj, hp, hi, hm]
          rw [hr]
          simp [processFile, hj, hp, hi, hm]
    · have hr : processFile noFail f = ⟨f, 0, 0, false⟩ := by
        simp [processFile, hj, hp]
      rw [hr]
      simp [processFile, hj, hp]

/-- C3: the pipeline is idempotent.  For every tree of files, an
exception-free second run immediately after a first run returns every
file (bytes, decoded image and sidecar alike) exactly as the first run
left it, and both counters of the second run are zero. -/
theorem c3_idempotent (fs : List File) :
    run (run fs).files = ⟨(run fs).files, 0, 0⟩ := by
  show runO noFail (runO noFail fs).files = ⟨(runO noFail fs).files, 0, 0⟩
  induction fs with
  | nil => rfl
  | cons f rest ih =>
    have hf := processFile_idem f
    rw [runO_cons]
    simp only []
    rw [runO_cons, hf.1, hf.2.1, hf.2.2, ih]
    simp

end FixIcons
